import Mathlib

/-!
Verification development for the lsk_muduo AGV gateway server.

Shallow embedding of:
* `Buffer` (src/lsk_muduo/muduo/net/Buffer.h): a growable byte container with
  reader/writer indices; bytes are modelled as naturals `< 256` in a `List ℕ`.
* `LengthHeaderCodec` (src/lsk_muduo/agv_server/codec/LengthHeaderCodec.cc).
* `AgvSession` / `GatewayServer` business rules
  (src/lsk_muduo/agv_server/gateway/GatewayServer.cc).
* `LatencyMonitor` (src/lsk_muduo/agv_server/gateway/LatencyMonitor.cc).
* `TimerQueue` cancellation machinery (src/lsk_muduo/TimerQueue.cc).
* `ThreadPool::run` (src/lsk_muduo/ThreadPool.cc).

C++ `double` arithmetic on times and battery levels is modelled over `ℚ`
(all values involved are exactly representable); machine integers are
modelled as `ℕ`/`ℤ` with explicit `% 2^w` where overflow matters.
-/

namespace LskMuduo

/-! ### Buffer (muduo/net/Buffer.h) -/

/-- `Buffer::kCheapPrepend` -/
def kCheapPrepend : ℕ := 8

/-- `Buffer::kInitialSize` -/
def kInitialSize : ℕ := 1024

/-- The byte container: `buffer_` (backing store), `readerIndex_`, `writerIndex_`. -/
structure Buffer where
  data : List ℕ
  readerIndex : ℕ
  writerIndex : ℕ
deriving DecidableEq

/-- `Buffer::Buffer(initialSize)`: vector of `kCheapPrepend + initialSize`
    zero bytes, both indices at `kCheapPrepend`. -/
def Buffer.create (initialSize : ℕ) : Buffer :=
  ⟨List.replicate (kCheapPrepend + initialSize) 0, kCheapPrepend, kCheapPrepend⟩

/-- `Buffer::readableBytes()` -/
def Buffer.readableBytes (b : Buffer) : ℕ := b.writerIndex - b.readerIndex

/-- `Buffer::writableBytes()` -/
def Buffer.writableBytes (b : Buffer) : ℕ := b.data.length - b.writerIndex

/-- `Buffer::prependableBytes()` -/
def Buffer.prependableBytes (b : Buffer) : ℕ := b.readerIndex

/-- `Buffer::retrieveAll()` -/
def Buffer.retrieveAll (b : Buffer) : Buffer :=
  { b with readerIndex := kCheapPrepend, writerIndex := kCheapPrepend }

/-- `Buffer::retrieve(len)` -/
def Buffer.retrieve (b : Buffer) (len : ℕ) : Buffer :=
  if len < b.readableBytes then
    { b with readerIndex := b.readerIndex + len }
  else
    b.retrieveAll

/-- `std::vector::resize(n)`: keep the first `n` elements, pad with zeroes. -/
def listResize (d : List ℕ) (n : ℕ) : List ℕ :=
  d.take n ++ List.replicate (n - d.length) 0

/-- Overwrite the bytes of `d` starting at position `pos` with `s`.
    Bytes of `s` that fall beyond the end of `d` are lost (in C++ they would
    be written past the end of the heap allocation). -/
def writeAt (d : List ℕ) (pos : ℕ) (s : List ℕ) : List ℕ :=
  d.take pos ++ s.take (d.length - pos) ++ d.drop (pos + s.length)

/-- `Buffer::makeSpace(len)`.  Note the guard compares
    `writableBytes() + readableBytes()` against `len + kCheapPrepend`
    (upstream muduo compares `prependableBytes() + writableBytes()`). -/
def Buffer.makeSpace (b : Buffer) (len : ℕ) : Buffer :=
  if b.writableBytes + b.readableBytes < len + kCheapPrepend then
    { b with data := listResize b.data (b.writerIndex + len) }
  else
    let readable := b.readableBytes
    { b with
      data := writeAt b.data kCheapPrepend
        ((b.data.drop b.readerIndex).take readable)
      readerIndex := kCheapPrepend
      writerIndex := kCheapPrepend + readable }

/-- `Buffer::ensureWriteableBytes(len)` -/
def Buffer.ensureWriteableBytes (b : Buffer) (len : ℕ) : Buffer :=
  if b.writableBytes < len then b.makeSpace len else b

/-- `Buffer::append(data, len)`: ensure space, copy to `beginWrite()`,
    advance `writerIndex_` by `len` (unconditionally, as the C++ does). -/
def Buffer.append (b : Buffer) (s : List ℕ) : Buffer :=
  { data := writeAt (b.ensureWriteableBytes s.length).data
      (b.ensureWriteableBytes s.length).writerIndex s
    readerIndex := (b.ensureWriteableBytes s.length).readerIndex
    writerIndex := (b.ensureWriteableBytes s.length).writerIndex + s.length }

/-- The `i`-th byte at or after the read position (`peek()[i]`). -/
def Buffer.byteAt (b : Buffer) (i : ℕ) : ℕ :=
  (b.data.drop b.readerIndex).getD i 0

/-- `static_cast<uint32_t>(Buffer::peekInt32())`: the big-endian 32-bit value
    at the read position (memcpy of 4 bytes + ntohl). -/
def Buffer.peekU32 (b : Buffer) : ℕ :=
  b.byteAt 0 * 16777216 + b.byteAt 1 * 65536 + b.byteAt 2 * 256 + b.byteAt 3

/-- `static_cast<uint16_t>(Buffer::peekInt16())`: big-endian 16-bit value. -/
def Buffer.peekU16 (b : Buffer) : ℕ :=
  b.byteAt 0 * 256 + b.byteAt 1

/-- `Buffer::readInt32()` (value as u32, plus the advanced buffer). -/
def Buffer.readU32 (b : Buffer) : ℕ × Buffer :=
  (b.peekU32, b.retrieve 4)

/-- `Buffer::readInt16()` (value as u16, plus the advanced buffer). -/
def Buffer.readU16 (b : Buffer) : ℕ × Buffer :=
  (b.peekU16, b.retrieve 2)

/-- `Buffer::read(len)`: `len` bytes at the read position, then `retrieve(len)`. -/
def Buffer.readBytes (b : Buffer) (len : ℕ) : List ℕ × Buffer :=
  ((b.data.drop b.readerIndex).take len, b.retrieve len)

/-- Big-endian bytes of a 16-bit value (`htons` + 2-byte copy). -/
def be16Bytes (n : ℕ) : List ℕ := [n / 256 % 256, n % 256]

/-- Big-endian bytes of a 32-bit value (`htonl` + 4-byte copy). -/
def be32Bytes (n : ℕ) : List ℕ :=
  [n / 16777216 % 256, n / 65536 % 256, n / 256 % 256, n % 256]

/-- `Buffer::appendInt32(x)` -/
def Buffer.appendInt32 (b : Buffer) (x : ℕ) : Buffer := b.append (be32Bytes x)

/-- `Buffer::appendInt16(x)` -/
def Buffer.appendInt16 (b : Buffer) (x : ℕ) : Buffer := b.append (be16Bytes x)

/-! ### LengthHeaderCodec (agv_server/codec/LengthHeaderCodec.cc) -/

namespace LengthHeaderCodec

/-- `LengthHeaderCodec::kHeaderLen` -/
def kHeaderLen : ℕ := 8

/-- `LengthHeaderCodec::kMinMessageLen` -/
def kMinMessageLen : ℕ := kHeaderLen + 1

/-- `LengthHeaderCodec::kMaxMessageLen` (10 MiB). -/
def kMaxMessageLen : ℕ := 10 * 1024 * 1024

/-- `LengthHeaderCodec::encode(buf, msgType, protoData, flags)`.
    `none` models returning `false` (the buffer is untouched in that case).
    `totalLen` is a `uint32_t`, hence the `% 2^32`. -/
def encode (buf : Buffer) (msgType : ℕ) (protoData : List ℕ) (flags : ℕ) :
    Option Buffer :=
  let totalLen := (kHeaderLen + protoData.length) % 4294967296
  if kMaxMessageLen < totalLen then
    none
  else
    some (((((buf.ensureWriteableBytes totalLen).appendInt32
      totalLen).appendInt16 msgType).appendInt16 flags).append protoData)

/-- `LengthHeaderCodec::hasCompleteMessage(buf)` -/
def hasCompleteMessage (buf : Buffer) : Bool :=
  if buf.readableBytes < kHeaderLen then
    false
  else
    let totalLen := buf.peekU32
    if totalLen < kMinMessageLen ∨ kMaxMessageLen < totalLen then
      false
    else
      decide (totalLen ≤ buf.readableBytes)

/-- `LengthHeaderCodec::decode(buf, &msgType, &protoData, &flags)`:
    `some (msgType, protoData, flags, buf')` on success. -/
def decode (buf : Buffer) : Option (ℕ × List ℕ × ℕ × Buffer) :=
  if hasCompleteMessage buf then
    let r1 := buf.readU32
    let r2 := r1.2.readU16
    let r3 := r2.2.readU16
    let payloadLen := r1.1 - kHeaderLen
    let r4 := r3.2.readBytes payloadLen
    some (r2.1, r4.1, r3.1, r4.2)
  else
    none

end LengthHeaderCodec

/-! ### AgvSession and GatewayServer business rules
    (agv_server/gateway/AgvSession.h, GatewayServer.cc) -/

/-- `AgvSession::State` -/
inductive AgvState
  | online
  | offline
  | charging
deriving DecidableEq

/-- The `AgvSession` fields the gateway's business rules touch.
    `battery_level_` is a C++ `double`, modelled over `ℚ`;
    `last_active_time_` is a `Timestamp` (microseconds since epoch). -/
structure AgvSession where
  battery : ℚ
  state : AgvState
  lastActiveUs : ℤ
deriving DecidableEq

/-- `GatewayServer::kLowBatteryThreshold` (20.0 %). -/
def kLowBatteryThreshold : ℚ := 20

/-- `GatewayServer::checkLowBatteryAndCharge`: returns the updated session and
    whether a charge command was sent on the connection. -/
def checkLowBatteryAndCharge (s : AgvSession) : AgvSession × Bool :=
  if s.battery < kLowBatteryThreshold ∧ s.state ≠ AgvState.charging then
    ({ s with state := AgvState.charging }, true)
  else
    (s, false)

/-- The part of a `proto::AgvTelemetry` message the business rules read. -/
structure Telemetry where
  battery : ℚ
deriving DecidableEq

/-- `GatewayServer::handleTelemetry` restricted to the session it updates:
    refresh `last_active_time`, update battery (pose is irrelevant here),
    then run `checkLowBatteryAndCharge`.  Returns the new session state and
    whether a charge command was sent. -/
def handleTelemetry (nowUs : ℤ) (msg : Telemetry) (s : AgvSession) :
    AgvSession × Bool :=
  checkLowBatteryAndCharge { s with lastActiveUs := nowUs, battery := msg.battery }

/-- Process a sequence of Telemetry messages for one session, counting how
    many charge commands are sent. -/
def runTelemetry (events : List (ℤ × Telemetry)) (s : AgvSession) :
    AgvSession × ℕ :=
  events.foldl
    (fun acc ev =>
      let r := handleTelemetry ev.1 ev.2 acc.1
      (r.1, acc.2 + if r.2 then 1 else 0))
    (s, 0)

/-- `GatewayServer::onWatchdogTimer`: iterate the session table; a session
    whose elapsed time (in ms, truncated as the C++ `double`→`int64_t` cast
    does) exceeds the timeout while Online is set Offline; nothing is removed.
    The session table is modelled as an association list `agv_id ↦ session`. -/
def onWatchdogTimer (nowUs timeoutMs : ℤ)
    (sessions : List (String × AgvSession)) : List (String × AgvSession) :=
  sessions.map fun p =>
    let elapsedMs := Int.tdiv (nowUs - p.2.lastActiveUs) 1000
    if timeoutMs < elapsedMs ∧ p.2.state = AgvState.online then
      (p.1, { p.2 with state := AgvState.offline })
    else
      p

/-! ### LatencyMonitor (agv_server/gateway/LatencyMonitor.cc) -/

/-- `LatencyMonitor::RttStats` (doubles over `ℚ`, `sample_count` over `ℕ`). -/
structure RttStats where
  latestRtt : ℚ
  avgRtt : ℚ
  minRtt : ℚ
  maxRtt : ℚ
  sampleCount : ℕ
  totalRtt : ℚ
deriving DecidableEq

/-- The member initializers of `RttStats` (min starts at 1e9). -/
def RttStats.init : RttStats := ⟨0, 0, 1000000000, 0, 0, 0⟩

/-- The statistics-update block of `processPong`: bump the count, accumulate
    the total, recompute the average, track min/max, remember the latest. -/
def RttStats.update (old : RttStats) (rtt : ℚ) : RttStats :=
  { latestRtt := rtt
    sampleCount := old.sampleCount + 1
    totalRtt := old.totalRtt + rtt
    avgRtt := (old.totalRtt + rtt) / ((old.sampleCount + 1 : ℕ) : ℚ)
    minRtt := if rtt < old.minRtt then rtt else old.minRtt
    maxRtt := if old.maxRtt < rtt then rtt else old.maxRtt }

/-- The fields of `proto::LatencyProbe` that `processPong` reads. -/
structure LatencyProbe where
  seqNum : ℕ
  isResponse : Bool

/-- `LatencyMonitor` state: pending probes `seq ↦ (agv_id, send_time_us)`
    and per-AGV statistics. -/
structure LMState where
  pending : ℕ → Option (String × ℤ)
  stats : String → RttStats

/-- A freshly constructed `LatencyMonitor`. -/
def LMState.init : LMState := ⟨fun _ => none, fun _ => RttStats.init⟩

/-- `LatencyMonitor::processPong(pong)` at time `nowUs`: returns the RTT in
    milliseconds (or −1.0) and the updated monitor state. -/
def processPong (nowUs : ℤ) (pong : LatencyProbe) (st : LMState) :
    ℚ × LMState :=
  if pong.isResponse = false then
    (-1, st)
  else
    match st.pending pong.seqNum with
    | none => (-1, st)
    | some (agvId, sendUs) =>
        let rtt : ℚ := ((nowUs - sendUs : ℤ) : ℚ) / 1000
        let upd : RttStats := RttStats.update (st.stats agvId) rtt
        (rtt,
          { pending := fun s => if s = pong.seqNum then none else st.pending s
            stats := fun a => if a = agvId then upd else st.stats a })

/-- One pong event applied to (state, history of recorded `(agv_id, rtt)`).
    A pong that matches a pending probe records its RTT in the history. -/
def pongStep (acc : LMState × List (String × ℚ)) (ev : ℤ × LatencyProbe) :
    LMState × List (String × ℚ) :=
  if ev.2.isResponse = false then
    acc
  else
    match acc.1.pending ev.2.seqNum with
    | none => acc
    | some (agvId, _) =>
        let r := processPong ev.1 ev.2 acc.1
        (r.2, acc.2 ++ [(agvId, r.1)])

/-- Run a sequence of pong events from a fresh monitor. -/
def processPongRun (events : List (ℤ × LatencyProbe)) :
    LMState × List (String × ℚ) :=
  events.foldl pongStep (LMState.init, [])

/-- Every RTT ever recorded for an AGV lies between that AGV's current
    `min_rtt_ms` and `max_rtt_ms`. -/
def statsBound (st : LMState) (log : List (String × ℚ)) : Prop :=
  ∀ a r, (a, r) ∈ log → (st.stats a).minRtt ≤ r ∧ r ≤ (st.stats a).maxRtt

/-- A concrete pong used in examples: sequence number 5, `is_response` set. -/
def pongW : LatencyProbe := ⟨5, true⟩

/-- A concrete monitor state used in examples: one pending probe
    `5 ↦ ("A", 1000)`, fresh statistics. -/
def lmW : LMState :=
  ⟨fun s2 => if s2 = 5 then some ("A", 1000) else none, fun _ => RttStats.init⟩

/-! ### TimerQueue cancellation (TimerQueue.cc)

Timers are identified by their `(Timer*, sequence)` identity, modelled as a
single `ℕ` id (sequence numbers are unique for the queue's lifetime).
`timers_` holds `(expiration, id)` entries, `activeTimers_` and
`cancelingTimers_` hold ids. -/

structure TQState where
  timers : List (ℤ × ℕ)
  active : Finset ℕ
  canceling : Finset ℕ
  callingExpired : Bool

/-- `TimerQueue::cancelInLoop(timerId)`: if the timer is active, erase it from
    both sets (and delete it); else if expired callbacks are running, remember
    it in `cancelingTimers_`. -/
def cancelInLoop (tid : ℕ) (s : TQState) : TQState :=
  if tid ∈ s.active then
    { s with
      timers := s.timers.filter (fun e => decide (e.2 ≠ tid))
      active := s.active.erase tid }
  else if s.callingExpired then
    { s with canceling := insert tid s.canceling }
  else
    s

/-- What a timer callback may do to the queue while it runs: cancel a timer
    (`TimerQueue::cancel`, marshalled to `cancelInLoop`) or add a freshly
    allocated timer (`addTimerInLoop` → `insert`). -/
inductive CbEvent
  | cancel (tid : ℕ)
  | add (when : ℤ) (tid : ℕ)
deriving DecidableEq

/-- Apply one callback-phase event. -/
def applyCbEvent (s : TQState) (ev : CbEvent) : TQState :=
  match ev with
  | .cancel tid => cancelInLoop tid s
  | .add w tid =>
      { s with timers := (w, tid) :: s.timers, active := insert tid s.active }

/-- `TimerQueue::getExpired(now)`: the entries with `expiration ≤ now`
    (the sentinel's pointer compares above every real pointer). -/
def getExpiredList (now : ℤ) (timers : List (ℤ × ℕ)) : List (ℤ × ℕ) :=
  timers.filter (fun e => decide (e.1 ≤ now))

/-- `TimerQueue::reset(expired, now)`: re-insert each expired timer that is
    repeating and not in `cancelingTimers_`; the rest are deleted.
    `rep` and `ival` give each timer's `repeat()` flag and interval. -/
def resetExpired (rep : ℕ → Bool) (ival : ℕ → ℤ) (now : ℤ)
    (expired : List (ℤ × ℕ)) (s : TQState) : TQState :=
  expired.foldl
    (fun st e =>
      if rep e.2 = true ∧ e.2 ∉ st.canceling then
        { st with
          timers := (now + ival e.2, e.2) :: st.timers
          active := insert e.2 st.active }
      else st)
    s

/-- `TimerQueue::handleRead` at time `now`, where the expired callbacks
    collectively perform `cbEvents` on the queue:
    take the expired batch out of both sets, raise the in-callbacks flag and
    clear `cancelingTimers_`, run the callbacks, drop the flag, `reset`. -/
def handleRead (rep : ℕ → Bool) (ival : ℕ → ℤ) (now : ℤ)
    (cbEvents : List CbEvent) (s : TQState) : TQState :=
  let expired := getExpiredList now s.timers
  let s1 : TQState :=
    { timers := s.timers.filter (fun e => decide (now < e.1))
      active := s.active \ (expired.map Prod.snd).toFinset
      canceling := ∅
      callingExpired := true }
  let s2 := cbEvents.foldl applyCbEvent s1
  let s3 := { s2 with callingExpired := false }
  resetExpired rep ival now expired s3

/-! ### ThreadPool (ThreadPool.cc) -/

/-- The `ThreadPool` state visible to `run`: worker-thread count
    (`threads_.size()`), the running flag, the queue cap and the task queue.
    Tasks are opaque values of type `τ`. -/
structure ThreadPoolState (τ : Type) where
  threads : ℕ
  running : Bool
  maxQueueSize : ℕ
  queue : List τ

/-- What `ThreadPool::run(task)` did from the caller's point of view. -/
inductive RunOutcome
  | ranInline
  | enqueued
  | droppedNotRunning
  | blockedFull
deriving DecidableEq

namespace ThreadPool

/-- `ThreadPool::ThreadPool`: no workers, not running, unbounded queue. -/
def create {τ : Type} : ThreadPoolState τ := ⟨0, false, 0, []⟩

/-- `ThreadPool::start(numThreads)`. -/
def start {τ : Type} (s : ThreadPoolState τ) (numThreads : ℕ) :
    ThreadPoolState τ :=
  { s with running := true, threads := numThreads }

/-- `ThreadPool::isFull()` (caller holds the lock). -/
def isFull {τ : Type} (s : ThreadPoolState τ) : Bool :=
  decide (0 < s.maxQueueSize) && decide (s.maxQueueSize ≤ s.queue.length)

/-- `ThreadPool::run(task)`: with no worker threads the task runs
    synchronously on the caller; otherwise the caller waits while the queue
    is full and the pool running (`blockedFull` models that suspension),
    returns without enqueuing if the pool has stopped, and enqueues
    otherwise. -/
def run {τ : Type} (s : ThreadPoolState τ) (task : τ) :
    RunOutcome × ThreadPoolState τ :=
  if s.threads = 0 then
    (RunOutcome.ranInline, s)
  else if isFull s = true ∧ s.running = true then
    (RunOutcome.blockedFull, s)
  else if s.running = false then
    (RunOutcome.droppedNotRunning, s)
  else
    (RunOutcome.enqueued, { s with queue := s.queue ++ [task] })

end ThreadPool

/-! ## Theorems -/

open LengthHeaderCodec

/-- Helper: the branch structure of `hasCompleteMessage` collapses to a
    conjunction of the three spec-level conditions. -/
theorem hasComplete_iff (b : Buffer) :
    hasCompleteMessage b = true ↔
      8 ≤ b.readableBytes ∧ 9 ≤ b.peekU32 ∧ b.peekU32 ≤ 10485760 ∧
        b.peekU32 ≤ b.readableBytes := by
  simp only [hasCompleteMessage, kMinMessageLen, kMaxMessageLen, kHeaderLen]
  norm_num
  tauto

/-- Helper: `resize` produces a list of exactly the requested length. -/
theorem listResize_length (d : List ℕ) (n : ℕ) : (listResize d n).length = n := by
  simp only [listResize, List.length_append, List.length_take, List.length_replicate]
  omega

/-- Helper: on a buffer whose readable region is empty,
    `ensureWriteableBytes(n)` leaves the indices alone and yields a backing
    store with at least `n` bytes of writable space (the buggy `makeSpace`
    guard is harmless here because `readableBytes() = 0`). -/
theorem ensure_empty (b : Buffer) (n : ℕ)
    (hempty : b.readerIndex = b.writerIndex)
    (hwf : b.writerIndex ≤ b.data.length) :
    (b.ensureWriteableBytes n).readerIndex = b.readerIndex ∧
    (b.ensureWriteableBytes n).writerIndex = b.writerIndex ∧
    b.writerIndex + n ≤ (b.ensureWriteableBytes n).data.length := by
  unfold Buffer.ensureWriteableBytes
  split_ifs with h
  · unfold Buffer.makeSpace
    rw [if_pos]
    · refine ⟨rfl, rfl, ?_⟩
      rw [listResize_length]
    · unfold Buffer.writableBytes Buffer.readableBytes at *
      unfold kCheapPrepend
      omega
  · unfold Buffer.writableBytes at h
    exact ⟨rfl, rfl, by omega⟩

/-- Helper: `append` when the writable region already holds the data:
    no `makeSpace`, the bytes land at the write position. -/
theorem append_inbounds (b : Buffer) (s : List ℕ)
    (h : b.writerIndex + s.length ≤ b.data.length) :
    b.append s =
      ⟨b.data.take b.writerIndex ++ s ++ b.data.drop (b.writerIndex + s.length),
        b.readerIndex, b.writerIndex + s.length⟩ := by
  have hw : ¬ b.writableBytes < s.length := by
    unfold Buffer.writableBytes
    omega
  unfold Buffer.append Buffer.ensureWriteableBytes writeAt
  rw [if_neg hw]
  rw [List.take_of_length_le
    (show s.length ≤ b.data.length - b.writerIndex by omega)]

/-- Helper: appending to a buffer of the shape
    `prefix ++ written-so-far ++ junk` extends the written block. -/
theorem append_chain (d : List ℕ) (r : ℕ) (acc s : List ℕ)
    (hr : r ≤ d.length) (hlen : r + acc.length + s.length ≤ d.length) :
    Buffer.append ⟨d.take r ++ acc ++ d.drop (r + acc.length), r, r + acc.length⟩ s =
      ⟨d.take r ++ (acc ++ s) ++ d.drop (r + acc.length + s.length), r,
        r + acc.length + s.length⟩ := by
  have hdlen : (d.take r ++ acc ++ d.drop (r + acc.length)).length = d.length := by
    simp only [List.length_append, List.length_take, List.length_drop]
    omega
  have hAB : (d.take r ++ acc).length = r + acc.length := by
    simp only [List.length_append, List.length_take]
    omega
  have htk : (d.take r ++ acc ++ d.drop (r + acc.length)).take (r + acc.length) =
      d.take r ++ acc := by
    conv_lhs => rw [← hAB]
    rw [List.take_left]
  have hdr : (d.take r ++ acc ++ d.drop (r + acc.length)).drop
      (r + acc.length + s.length) = d.drop (r + acc.length + s.length) := by
    have h1 : r + acc.length + s.length = (d.take r ++ acc).length + s.length := by
      rw [hAB]
    conv_lhs => rw [h1, List.drop_append]
    rw [List.drop_drop]
  rw [append_inbounds _ _ (by rw [hdlen]; exact hlen), htk, hdr]
  simp only [List.append_assoc]

/-- Helper: reading the big-endian u32 at the front of the readable region. -/
theorem peekU32_of_drop (b : Buffer) (x : ℕ) (rest : List ℕ)
    (hx : x < 4294967296)
    (h : b.data.drop b.readerIndex = be32Bytes x ++ rest) :
    b.peekU32 = x := by
  unfold Buffer.peekU32 Buffer.byteAt
  rw [h]
  show x / 16777216 % 256 * 16777216 + x / 65536 % 256 * 65536 +
      x / 256 % 256 * 256 + x % 256 = x
  omega

/-- Helper: reading the big-endian u16 at the front of the readable region. -/
theorem peekU16_of_drop (b : Buffer) (x : ℕ) (rest : List ℕ)
    (hx : x < 65536)
    (h : b.data.drop b.readerIndex = be16Bytes x ++ rest) :
    b.peekU16 = x := by
  unfold Buffer.peekU16 Buffer.byteAt
  rw [h]
  show x / 256 % 256 * 256 + x % 256 = x
  omega

/-- Helper: two consecutive in-bounds appends equal one append of the
    concatenation. -/
theorem append_append (b : Buffer) (s₁ s₂ : List ℕ)
    (h : b.writerIndex + s₁.length + s₂.length ≤ b.data.length) :
    (b.append s₁).append s₂ = b.append (s₁ ++ s₂) := by
  have h1 : b.writerIndex + s₁.length ≤ b.data.length := by omega
  rw [append_inbounds b s₁ h1]
  have hlen : (b.data.take b.writerIndex ++ s₁ ++
      b.data.drop (b.writerIndex + s₁.length)).length = b.data.length := by
    simp only [List.length_append, List.length_take, List.length_drop]
    omega
  rw [append_inbounds _ s₂ (by rw [hlen]; exact h)]
  rw [append_inbounds b (s₁ ++ s₂) (by rw [List.length_append]; omega)]
  have hAB : (b.data.take b.writerIndex ++ s₁).length =
      b.writerIndex + s₁.length := by
    simp only [List.length_append, List.length_take]
    omega
  have htk : (b.data.take b.writerIndex ++ s₁ ++
      b.data.drop (b.writerIndex + s₁.length)).take (b.writerIndex + s₁.length) =
      b.data.take b.writerIndex ++ s₁ := by
    conv_lhs => rw [← hAB]
    rw [List.take_left]
  have hdr : (b.data.take b.writerIndex ++ s₁ ++
      b.data.drop (b.writerIndex + s₁.length)).drop
      (b.writerIndex + s₁.length + s₂.length) =
      b.data.drop (b.writerIndex + s₁.length + s₂.length) := by
    have h2 : b.writerIndex + s₁.length + s₂.length =
        (b.data.take b.writerIndex ++ s₁).length + s₂.length := by
      rw [hAB]
    conv_lhs => rw [h2, List.drop_append]
    rw [List.drop_drop]
  rw [htk, hdr]
  simp only [List.append_assoc, List.length_append, Nat.add_assoc]

/-- Helper: `retrieve` below the readable count advances the reader. -/
theorem retrieve_lt (b : Buffer) (len : ℕ)
    (h : len < b.writerIndex - b.readerIndex) :
    b.retrieve len = Buffer.mk b.data (b.readerIndex + len) b.writerIndex := by
  unfold Buffer.retrieve Buffer.readableBytes
  rw [if_pos h]

/-- Helper: `retrieve` of at least the readable count resets both indices. -/
theorem retrieve_ge (b : Buffer) (len : ℕ)
    (h : ¬ len < b.writerIndex - b.readerIndex) :
    b.retrieve len = Buffer.mk b.data kCheapPrepend kCheapPrepend := by
  unfold Buffer.retrieve Buffer.retrieveAll Buffer.readableBytes
  rw [if_neg h]

/-- Helper: decoding a buffer whose readable region is exactly one
    well-formed frame followed by junk recovers the header fields and the
    payload, and leaves an emptied buffer. -/
theorem decode_frame (buf : Buffer) (x t f : ℕ) (p rest : List ℕ)
    (hdrop : buf.data.drop buf.readerIndex =
      be32Bytes x ++ (be16Bytes t ++ (be16Bytes f ++ (p ++ rest))))
    (hx : x = 8 + p.length) (hp : 1 ≤ p.length)
    (hreadable : buf.readableBytes = x)
    (hmax : x ≤ 10485760) (ht : t < 65536) (hf : f < 65536) :
    decode buf =
      some (t, p, f, Buffer.mk buf.data kCheapPrepend kCheapPrepend) := by
  have hx32 : x < 4294967296 := by omega
  have hpeek : buf.peekU32 = x := by
    apply peekU32_of_drop buf x _ hx32
    rw [hdrop]
  have hread' : buf.writerIndex - buf.readerIndex = x := hreadable
  have hcm : hasCompleteMessage buf = true := by
    rw [hasComplete_iff, hreadable, hpeek]
    omega
  have e1 : buf.retrieve 4 =
      Buffer.mk buf.data (buf.readerIndex + 4) buf.writerIndex :=
    retrieve_lt buf 4 (by omega)
  have hd1 : buf.data.drop (buf.readerIndex + 4) =
      be16Bytes t ++ (be16Bytes f ++ (p ++ rest)) := by
    rw [← List.drop_drop 4 buf.readerIndex buf.data, hdrop]
    rw [show (4 : ℕ) = (be32Bytes x).length from rfl, List.drop_left]
  have e2 : (Buffer.mk buf.data (buf.readerIndex + 4) buf.writerIndex).retrieve 2 =
      Buffer.mk buf.data (buf.readerIndex + 4 + 2) buf.writerIndex :=
    retrieve_lt _ 2 (show 2 < buf.writerIndex - (buf.readerIndex + 4) by omega)
  have hd2 : buf.data.drop (buf.readerIndex + 4 + 2) =
      be16Bytes f ++ (p ++ rest) := by
    rw [← List.drop_drop 2 (buf.readerIndex + 4) buf.data, hd1]
    rw [show (2 : ℕ) = (be16Bytes t).length from rfl, List.drop_left]
  have e3 : (Buffer.mk buf.data (buf.readerIndex + 4 + 2) buf.writerIndex).retrieve 2 =
      Buffer.mk buf.data (buf.readerIndex + 4 + 2 + 2) buf.writerIndex :=
    retrieve_lt _ 2 (show 2 < buf.writerIndex - (buf.readerIndex + 4 + 2) by omega)
  have hd3 : buf.data.drop (buf.readerIndex + 4 + 2 + 2) = p ++ rest := by
    rw [← List.drop_drop 2 (buf.readerIndex + 4 + 2) buf.data, hd2]
    rw [show (2 : ℕ) = (be16Bytes f).length from rfl, List.drop_left]
  have e4 : (Buffer.mk buf.data (buf.readerIndex + 4 + 2 + 2)
      buf.writerIndex).retrieve (x - kHeaderLen) =
      Buffer.mk buf.data kCheapPrepend kCheapPrepend :=
    retrieve_ge _ (x - kHeaderLen)
      (show ¬ (x - kHeaderLen < buf.writerIndex - (buf.readerIndex + 4 + 2 + 2)) by
        unfold kHeaderLen
        omega)
  have hpt : (Buffer.mk buf.data (buf.readerIndex + 4) buf.writerIndex).peekU16 = t := by
    apply peekU16_of_drop _ t _ ht
    exact hd1
  have hpf : (Buffer.mk buf.data (buf.readerIndex + 4 + 2)
      buf.writerIndex).peekU16 = f := by
    apply peekU16_of_drop _ f _ hf
    exact hd2
  have hpl : (buf.data.drop (buf.readerIndex + 4 + 2 + 2)).take (x - kHeaderLen) = p := by
    rw [hd3, show x - kHeaderLen = p.length from by unfold kHeaderLen; omega]
    exact List.take_left p rest
  simp only [decode, Buffer.readU32, Buffer.readU16, Buffer.readBytes]
  rw [if_pos hcm, hpeek, e1, e2, e3]
  simp only [e4, hpt, hpf, hpl]

/-- C1: `hasCompleteMessage(buf)` returns true iff the buffer holds at least
    8 readable bytes, the big-endian u32 at the read position (the declared
    total length) lies in `[9, 10*1024*1024]`, and the readable byte count is
    at least that declared total length. -/
theorem hasCompleteMessage_characterization (b : Buffer) :
    hasCompleteMessage b = true ↔
      8 ≤ b.readableBytes ∧ 9 ≤ b.peekU32 ∧ b.peekU32 ≤ 10485760 ∧
        b.peekU32 ≤ b.readableBytes :=
  hasComplete_iff b

/-- C1 witness: the characterization evaluated at a concrete buffer holding
    one complete 9-byte frame. -/
theorem hasCompleteMessage_characterization_witness :
    hasCompleteMessage ⟨[0, 0, 0, 0, 0, 0, 0, 0, 0, 0, 0, 9, 0, 5, 0, 0, 65], 8, 17⟩
        = true ↔
      8 ≤ Buffer.readableBytes ⟨[0, 0, 0, 0, 0, 0, 0, 0, 0, 0, 0, 9, 0, 5, 0, 0, 65], 8, 17⟩ ∧
      9 ≤ Buffer.peekU32 ⟨[0, 0, 0, 0, 0, 0, 0, 0, 0, 0, 0, 9, 0, 5, 0, 0, 65], 8, 17⟩ ∧
      Buffer.peekU32 ⟨[0, 0, 0, 0, 0, 0, 0, 0, 0, 0, 0, 9, 0, 5, 0, 0, 65], 8, 17⟩ ≤ 10485760 ∧
      Buffer.peekU32 ⟨[0, 0, 0, 0, 0, 0, 0, 0, 0, 0, 0, 9, 0, 5, 0, 0, 65], 8, 17⟩ ≤
        Buffer.readableBytes ⟨[0, 0, 0, 0, 0, 0, 0, 0, 0, 0, 0, 9, 0, 5, 0, 0, 65], 8, 17⟩ :=
  hasCompleteMessage_characterization
    ⟨[0, 0, 0, 0, 0, 0, 0, 0, 0, 0, 0, 9, 0, 5, 0, 0, 65], 8, 17⟩

/-- C2: encoding a non-empty payload of length at most 10 MiB − 8 (with any
    u16 message type and flags) into a buffer with an empty readable region
    and then decoding that buffer succeeds and returns exactly the same
    message type, payload and flags. -/
theorem encode_decode_roundtrip (b : Buffer) (msgType flags : ℕ) (p : List ℕ)
    (hempty : b.readerIndex = b.writerIndex)
    (hwf : b.writerIndex ≤ b.data.length)
    (hp1 : 1 ≤ p.length) (hp2 : p.length ≤ 10485752)
    (ht : msgType < 65536) (hf : flags < 65536) :
    ∃ encoded rest, encode b msgType p flags = some encoded ∧
      decode encoded = some (msgType, p, flags, rest) := by
  have hmod : (kHeaderLen + p.length) % 4294967296 = 8 + p.length := by
    unfold kHeaderLen
    omega
  have hENC : encode b msgType p flags =
      some (((((b.ensureWriteableBytes (8 + p.length)).append
        (be32Bytes (8 + p.length))).append (be16Bytes msgType)).append
        (be16Bytes flags)).append p) := by
    simp only [encode, Buffer.appendInt32, Buffer.appendInt16]
    rw [hmod, if_neg (show ¬ kMaxMessageLen < 8 + p.length by
      unfold kMaxMessageLen; omega)]
  obtain ⟨er, ew, elen⟩ := ensure_empty b (8 + p.length) hempty hwf
  have l32 : (be32Bytes (8 + p.length)).length = 4 := rfl
  have l16t : (be16Bytes msgType).length = 2 := rfl
  have l16f : (be16Bytes flags).length = 2 := rfl
  have hc1 : ((b.ensureWriteableBytes (8 + p.length)).append
      (be32Bytes (8 + p.length))).append (be16Bytes msgType) =
      (b.ensureWriteableBytes (8 + p.length)).append
        (be32Bytes (8 + p.length) ++ be16Bytes msgType) :=
    append_append _ _ _ (by rw [l32, l16t, ew]; omega)
  have hc2 : ((b.ensureWriteableBytes (8 + p.length)).append
      (be32Bytes (8 + p.length) ++ be16Bytes msgType)).append (be16Bytes flags) =
      (b.ensureWriteableBytes (8 + p.length)).append
        ((be32Bytes (8 + p.length) ++ be16Bytes msgType) ++ be16Bytes flags) :=
    append_append _ _ _ (by rw [List.length_append, l32, l16t, l16f, ew]; omega)
  have hc3 : ((b.ensureWriteableBytes (8 + p.length)).append
      ((be32Bytes (8 + p.length) ++ be16Bytes msgType) ++ be16Bytes flags)).append p =
      (b.ensureWriteableBytes (8 + p.length)).append
        (((be32Bytes (8 + p.length) ++ be16Bytes msgType) ++ be16Bytes flags) ++ p) :=
    append_append _ _ _
      (by rw [List.length_append, List.length_append, l32, l16t, l16f, ew]; omega)
  have lF : (((be32Bytes (8 + p.length) ++ be16Bytes msgType) ++
      be16Bytes flags) ++ p).length = 8 + p.length := by
    simp only [List.length_append, l32, l16t, l16f]
  have hAPP := append_inbounds (b.ensureWriteableBytes (8 + p.length))
    (((be32Bytes (8 + p.length) ++ be16Bytes msgType) ++ be16Bytes flags) ++ p)
    (by rw [lF, ew]; exact elen)
  rw [hc1, hc2, hc3, hAPP, er, ew, ← hempty, lF] at hENC
  rw [← hempty] at elen
  generalize hgd : (b.ensureWriteableBytes (8 + p.length)).data = d0 at hENC elen
  have hrle : b.readerIndex ≤ d0.length := by omega
  have htake_len : (d0.take b.readerIndex).length = b.readerIndex := by
    rw [List.length_take]
    omega
  generalize hpre : d0.take b.readerIndex = pre at hENC
  generalize hrest : d0.drop (b.readerIndex + (8 + p.length)) = theRest at hENC
  have hprelen : pre.length = b.readerIndex := by
    rw [← hpre]
    exact htake_len
  have hdropE : (pre ++
      (((be32Bytes (8 + p.length) ++ be16Bytes msgType) ++ be16Bytes flags) ++ p) ++
      theRest).drop b.readerIndex =
      be32Bytes (8 + p.length) ++ (be16Bytes msgType ++ (be16Bytes flags ++
        (p ++ theRest))) := by
    rw [List.append_assoc]
    conv_lhs => rw [← hprelen]
    rw [List.drop_left]
    simp only [List.append_assoc]
  have hDEC := decode_frame
    (Buffer.mk (pre ++
      (((be32Bytes (8 + p.length) ++ be16Bytes msgType) ++ be16Bytes flags) ++ p) ++
      theRest)
      b.readerIndex (b.readerIndex + (8 + p.length)))
    (8 + p.length) msgType flags p theRest
    hdropE rfl hp1
    (show b.readerIndex + (8 + p.length) - b.readerIndex = 8 + p.length by omega)
    (by omega) ht hf
  exact ⟨_, _, hENC, hDEC⟩

/-- C2 witness: round-trip at a concrete instance — a fresh `Buffer(4)`,
    message type 7, flags 3, payload `[65]`. -/
theorem encode_decode_roundtrip_witness :
    ∃ encoded rest, encode (Buffer.create 4) 7 [65] 3 = some encoded ∧
      decode encoded = some (7, [65], 3, rest) :=
  encode_decode_roundtrip (Buffer.create 4) 7 3 [65] rfl (by decide)
    (by decide) (by decide) (by decide) (by decide)

/-- C3 (code bug, evaluated at the failing input): `encode` called with a
    zero-length payload returns true (`some`) and appends an 8-byte frame
    whose declared length 8 is below `kMinMessageLen`, so the codec's own
    `hasCompleteMessage` never accepts it — instead of returning false and
    appending nothing as the spec (and the repo's CodecTest) require. -/
theorem encode_accepts_empty_payload :
    (encode (Buffer.create 16) 1 [] 0).isSome = true ∧
    (encode (Buffer.create 16) 1 [] 0).map Buffer.readableBytes = some 8 ∧
    (encode (Buffer.create 16) 1 [] 0).map hasCompleteMessage = some false := by
  decide

/-- C4 (code bug, evaluated at the failing input): starting from
    `Buffer(24)` (32-byte backing store) filled with 24 readable bytes,
    `ensureWriteableBytes(4)` takes the shift branch of `makeSpace` (its
    guard compares `writableBytes()+readableBytes()` instead of
    `prependableBytes()+writableBytes()`) and reclaims nothing: the writable
    region still holds 0 < 4 bytes, and the subsequent `append` of 4 bytes
    pushes `writerIndex_` to 36, past the 32-byte backing store. -/
theorem makeSpace_underprovision :
    (((Buffer.create 24).append (List.replicate 24 1)).ensureWriteableBytes
        4).writableBytes = 0 ∧
    (((Buffer.create 24).append (List.replicate 24 1)).append
        [9, 9, 9, 9]).data.length <
      (((Buffer.create 24).append (List.replicate 24 1)).append
        [9, 9, 9, 9]).writerIndex := by
  decide

/-- C10: `retrieve(len)` advances the reader index by exactly `len` when
    `len < readableBytes()`, and otherwise resets both indices to the prepend
    boundary, emptying the buffer; in both cases the remaining readable count
    is `readableBytes() - len` (never moving the reader past the writer). -/
theorem retrieve_spec (b : Buffer) (len : ℕ) :
    (len < b.readableBytes →
        b.retrieve len = { b with readerIndex := b.readerIndex + len }) ∧
    (b.readableBytes ≤ len →
        b.retrieve len =
          { b with readerIndex := kCheapPrepend, writerIndex := kCheapPrepend } ∧
          (b.retrieve len).readableBytes = 0) ∧
    (b.retrieve len).readableBytes = b.readableBytes - len := by
  unfold Buffer.retrieve Buffer.retrieveAll Buffer.readableBytes
  split_ifs with h
  · refine ⟨fun _ => rfl, fun h2 => absurd h (by omega), ?_⟩
    simp only
    omega
  · refine ⟨fun h1 => absurd h1 h, fun _ => ⟨rfl, ?_⟩, ?_⟩
    · simp [kCheapPrepend]
    · simp only [kCheapPrepend]
      omega

/-- C10 witness: both branches of `retrieve_spec` at a concrete buffer with
    3 readable bytes. -/
theorem retrieve_spec_witness :
    ((⟨List.replicate 12 0, 8, 11⟩ : Buffer).retrieve 2 =
      { (⟨List.replicate 12 0, 8, 11⟩ : Buffer) with readerIndex := 8 + 2 }) ∧
    ((⟨List.replicate 12 0, 8, 11⟩ : Buffer).retrieve 7 =
      { (⟨List.replicate 12 0, 8, 11⟩ : Buffer) with
          readerIndex := kCheapPrepend, writerIndex := kCheapPrepend }) :=
  ⟨(retrieve_spec ⟨List.replicate 12 0, 8, 11⟩ 2).1 (by decide),
   ((retrieve_spec ⟨List.replicate 12 0, 8, 11⟩ 7).2.1 (by decide)).1⟩

/-- Helper: once a session is Charging, Telemetry processing never sends a
    charge command and never leaves the Charging state. -/
theorem runTelemetry_charging_aux (events : List (ℤ × Telemetry))
    (s : AgvSession) (n : ℕ) (h : s.state = AgvState.charging) :
    (events.foldl
        (fun acc ev =>
          let r := handleTelemetry ev.1 ev.2 acc.1
          (r.1, acc.2 + if r.2 then 1 else 0))
        (s, n)).1.state = AgvState.charging ∧
    (events.foldl
        (fun acc ev =>
          let r := handleTelemetry ev.1 ev.2 acc.1
          (r.1, acc.2 + if r.2 then 1 else 0))
        (s, n)).2 = n := by
  induction events generalizing s n with
  | nil => exact ⟨h, rfl⟩
  | cons ev tl ih =>
      have hstep : handleTelemetry ev.1 ev.2 s =
          ({ s with lastActiveUs := ev.1, battery := ev.2.battery }, false) := by
        unfold handleTelemetry checkLowBatteryAndCharge
        rw [if_neg]
        intro hcon
        exact hcon.2 h
      simp only [List.foldl_cons, hstep, Bool.false_eq_true, if_false,
        Nat.add_zero]
      exact ih _ _ h

/-- C5: a Telemetry message with battery below 20 % for a session that is
    not Charging makes the server send a charge command and set the state to
    Charging; any further Telemetry for that session (while it stays
    Charging) sends no additional command. -/
theorem low_battery_single_fire (s : AgvSession) (nowUs : ℤ) (m : Telemetry)
    (events : List (ℤ × Telemetry))
    (hb : m.battery < 20) (hs : s.state ≠ AgvState.charging) :
    (handleTelemetry nowUs m s).2 = true ∧
    (handleTelemetry nowUs m s).1.state = AgvState.charging ∧
    (runTelemetry events (handleTelemetry nowUs m s).1).1.state =
      AgvState.charging ∧
    (runTelemetry events (handleTelemetry nowUs m s).1).2 = 0 := by
  have hstep : handleTelemetry nowUs m s =
      (AgvSession.mk m.battery AgvState.charging nowUs, true) := by
    unfold handleTelemetry checkLowBatteryAndCharge
    rw [if_pos]
    exact ⟨hb, hs⟩
  rw [hstep]
  exact ⟨rfl, rfl,
    (runTelemetry_charging_aux events _ 0 rfl).1,
    (runTelemetry_charging_aux events _ 0 rfl).2⟩

/-- C5 witness: battery 15 % on an Online session, followed by two more
    low-battery Telemetry messages. -/
theorem low_battery_single_fire_witness :
    (handleTelemetry 5 ⟨15⟩ ⟨100, AgvState.online, 0⟩).2 = true ∧
    (handleTelemetry 5 ⟨15⟩ ⟨100, AgvState.online, 0⟩).1.state =
      AgvState.charging ∧
    (runTelemetry [(6, ⟨15⟩), (7, ⟨10⟩)]
        (handleTelemetry 5 ⟨15⟩ ⟨100, AgvState.online, 0⟩).1).1.state =
      AgvState.charging ∧
    (runTelemetry [(6, ⟨15⟩), (7, ⟨10⟩)]
        (handleTelemetry 5 ⟨15⟩ ⟨100, AgvState.online, 0⟩).1).2 = 0 :=
  low_battery_single_fire ⟨100, AgvState.online, 0⟩ 5 ⟨15⟩
    [(6, ⟨15⟩), (7, ⟨10⟩)] (by norm_num) (by decide)

/-- C6: one watchdog tick sets exactly the timed-out Online sessions to
    Offline, leaves every other session untouched, and removes nothing from
    the session table (same length, same keys in the same order). -/
theorem watchdog_spec (nowUs timeoutMs : ℤ)
    (sessions : List (String × AgvSession)) :
    (onWatchdogTimer nowUs timeoutMs sessions).length = sessions.length ∧
    (onWatchdogTimer nowUs timeoutMs sessions).map Prod.fst =
      sessions.map Prod.fst ∧
    List.Forall₂
      (fun p q : String × AgvSession =>
        ((timeoutMs < Int.tdiv (nowUs - p.2.lastActiveUs) 1000 ∧
            p.2.state = AgvState.online) →
          q = (p.1, { p.2 with state := AgvState.offline })) ∧
        (¬ (timeoutMs < Int.tdiv (nowUs - p.2.lastActiveUs) 1000 ∧
            p.2.state = AgvState.online) →
          q = p))
      sessions (onWatchdogTimer nowUs timeoutMs sessions) := by
  refine ⟨by simp [onWatchdogTimer], ?_, ?_⟩
  · unfold onWatchdogTimer
    rw [List.map_map]
    apply List.map_congr_left
    intro x _
    by_cases h : timeoutMs < Int.tdiv (nowUs - x.2.lastActiveUs) 1000 ∧
        x.2.state = AgvState.online
    · simp [h]
    · simp [h]
  · induction sessions with
    | nil => exact List.Forall₂.nil
    | cons hd tl ih =>
        refine List.Forall₂.cons ?_ ih
        by_cases h : timeoutMs < Int.tdiv (nowUs - hd.2.lastActiveUs) 1000 ∧
            hd.2.state = AgvState.online
        · exact ⟨fun _ => by simp [onWatchdogTimer, h], fun hc => absurd h hc⟩
        · exact ⟨fun hc => absurd hc h, fun _ => by simp [onWatchdogTimer, h]⟩

/-- C6 witness: a two-session table at a tick 2000 ms after the last
    activity with a 1000 ms timeout — the Online session goes Offline, the
    Offline one is untouched. -/
theorem watchdog_spec_witness :
    (onWatchdogTimer 2000000 1000
        [("A", ⟨50, AgvState.online, 0⟩), ("B", ⟨50, AgvState.offline, 0⟩)]).length =
      [("A", (⟨50, AgvState.online, 0⟩ : AgvSession)),
        ("B", ⟨50, AgvState.offline, 0⟩)].length ∧
    (onWatchdogTimer 2000000 1000
        [("A", ⟨50, AgvState.online, 0⟩), ("B", ⟨50, AgvState.offline, 0⟩)]).map
        Prod.fst =
      [("A", (⟨50, AgvState.online, 0⟩ : AgvSession)),
        ("B", ⟨50, AgvState.offline, 0⟩)].map Prod.fst ∧
    List.Forall₂
      (fun p q : String × AgvSession =>
        ((1000 < Int.tdiv (2000000 - p.2.lastActiveUs) 1000 ∧
            p.2.state = AgvState.online) →
          q = (p.1, { p.2 with state := AgvState.offline })) ∧
        (¬ (1000 < Int.tdiv (2000000 - p.2.lastActiveUs) 1000 ∧
            p.2.state = AgvState.online) →
          q = p))
      [("A", ⟨50, AgvState.online, 0⟩), ("B", ⟨50, AgvState.offline, 0⟩)]
      (onWatchdogTimer 2000000 1000
        [("A", ⟨50, AgvState.online, 0⟩), ("B", ⟨50, AgvState.offline, 0⟩)]) :=
  watchdog_spec 2000000 1000
    [("A", ⟨50, AgvState.online, 0⟩), ("B", ⟨50, AgvState.offline, 0⟩)]

/-- Helper: `processPong` on a matching pong, fully reduced. -/
theorem processPong_hit (nowUs : ℤ) (pong : LatencyProbe) (st : LMState)
    (agvId : String) (sendUs : ℤ)
    (hresp : pong.isResponse = true)
    (hpend : st.pending pong.seqNum = some (agvId, sendUs)) :
    processPong nowUs pong st =
      (((nowUs - sendUs : ℤ) : ℚ) / 1000,
        LMState.mk
          (fun s2 => if s2 = pong.seqNum then none else st.pending s2)
          (fun a => if a = agvId then
            RttStats.update (st.stats agvId) (((nowUs - sendUs : ℤ) : ℚ) / 1000)
            else st.stats a)) := by
  simp [processPong, hresp, hpend]

/-- Helper: the updated minimum is at most the new RTT. -/
theorem update_minRtt_le_rtt (o : RttStats) (rtt : ℚ) :
    (RttStats.update o rtt).minRtt ≤ rtt := by
  show (if rtt < o.minRtt then rtt else o.minRtt) ≤ rtt
  split_ifs with h
  · exact le_rfl
  · exact le_of_not_lt h

/-- Helper: the updated minimum is at most the old minimum. -/
theorem update_minRtt_le_old (o : RttStats) (rtt : ℚ) :
    (RttStats.update o rtt).minRtt ≤ o.minRtt := by
  show (if rtt < o.minRtt then rtt else o.minRtt) ≤ o.minRtt
  split_ifs with h
  · exact h.le
  · exact le_rfl

/-- Helper: the updated maximum is at least the new RTT. -/
theorem update_rtt_le_maxRtt (o : RttStats) (rtt : ℚ) :
    rtt ≤ (RttStats.update o rtt).maxRtt := by
  show rtt ≤ (if o.maxRtt < rtt then rtt else o.maxRtt)
  split_ifs with h
  · exact le_rfl
  · exact le_of_not_lt h

/-- Helper: the updated maximum is at least the old maximum. -/
theorem update_old_le_maxRtt (o : RttStats) (rtt : ℚ) :
    o.maxRtt ≤ (RttStats.update o rtt).maxRtt := by
  show o.maxRtt ≤ (if o.maxRtt < rtt then rtt else o.maxRtt)
  split_ifs with h
  · exact h.le
  · exact le_rfl

/-- Helper: one pong step preserves the min/max bound on all recorded RTTs. -/
theorem pongStep_bound (acc : LMState × List (String × ℚ))
    (ev : ℤ × LatencyProbe) (h : statsBound acc.1 acc.2) :
    statsBound (pongStep acc ev).1 (pongStep acc ev).2 := by
  unfold pongStep
  by_cases hresp : ev.2.isResponse = false
  · rw [if_pos hresp]
    exact h
  · rw [if_neg hresp]
    have hresp' : ev.2.isResponse = true := by
      revert hresp
      cases ev.2.isResponse <;> simp
    split
    · exact h
    · rename_i agvId sendUs heq
      rw [processPong_hit ev.1 ev.2 acc.1 agvId sendUs hresp' heq]
      intro a r hmem
      have hmem' : (a, r) ∈ acc.2 ++ [(agvId, ((ev.1 - sendUs : ℤ) : ℚ) / 1000)] :=
        hmem
      show (if a = agvId then
          RttStats.update (acc.1.stats agvId) (((ev.1 - sendUs : ℤ) : ℚ) / 1000)
          else acc.1.stats a).minRtt ≤ r ∧
        r ≤ (if a = agvId then
          RttStats.update (acc.1.stats agvId) (((ev.1 - sendUs : ℤ) : ℚ) / 1000)
          else acc.1.stats a).maxRtt
      rcases List.mem_append.mp hmem' with hold | hnew
      · have hb := h a r hold
        by_cases ha : a = agvId
        · subst ha
          rw [if_pos rfl]
          exact ⟨le_trans (update_minRtt_le_old _ _) hb.1,
            le_trans hb.2 (update_old_le_maxRtt _ _)⟩
        · rw [if_neg ha]
          exact hb
      · rw [List.mem_singleton] at hnew
        have ha : a = agvId := congrArg Prod.fst hnew
        have hr : r = ((ev.1 - sendUs : ℤ) : ℚ) / 1000 := congrArg Prod.snd hnew
        subst ha
        subst hr
        rw [if_pos rfl]
        exact ⟨update_minRtt_le_rtt _ _, update_rtt_le_maxRtt _ _⟩

/-- Helper: every run from a fresh monitor keeps all recorded RTTs inside
    the per-AGV `[min, max]` interval. -/
theorem processPongRun_bound (events : List (ℤ × LatencyProbe)) :
    statsBound (processPongRun events).1 (processPongRun events).2 := by
  have hgen : ∀ acc : LMState × List (String × ℚ), statsBound acc.1 acc.2 →
      statsBound (events.foldl pongStep acc).1 (events.foldl pongStep acc).2 := by
    induction events with
    | nil => exact fun acc h => h
    | cons e tl ih =>
        intro acc h
        rw [List.foldl_cons]
        exact ih _ (pongStep_bound acc e h)
  apply hgen
  intro a r hmem
  exact absurd hmem (List.not_mem_nil _)

/-- C8: `processPong` on a pong (`is_response = true`) with no matching
    pending probe returns −1.0 and changes nothing; on a match it erases
    exactly that pending entry, returns `(now − send_time)/1000` ms, bumps
    that AGV's sample count by one, accumulates the RTT into the total,
    keeps `avg = total/count`, keeps `min`/`max` bounding the new RTT and
    the old bounds, and touches no other AGV's statistics; over any run
    from a fresh monitor, `min` and `max` bound every recorded RTT. -/
theorem processPong_spec (nowUs : ℤ) (pong : LatencyProbe) (st : LMState)
    (hresp : pong.isResponse = true) :
    (st.pending pong.seqNum = none → processPong nowUs pong st = (-1, st)) ∧
    (∀ agvId sendUs, st.pending pong.seqNum = some (agvId, sendUs) →
      (processPong nowUs pong st).1 = ((nowUs - sendUs : ℤ) : ℚ) / 1000 ∧
      (processPong nowUs pong st).2.pending pong.seqNum = none ∧
      (∀ s2, s2 ≠ pong.seqNum →
        (processPong nowUs pong st).2.pending s2 = st.pending s2) ∧
      ((processPong nowUs pong st).2.stats agvId).sampleCount =
        (st.stats agvId).sampleCount + 1 ∧
      ((processPong nowUs pong st).2.stats agvId).totalRtt =
        (st.stats agvId).totalRtt + ((nowUs - sendUs : ℤ) : ℚ) / 1000 ∧
      ((processPong nowUs pong st).2.stats agvId).avgRtt =
        ((processPong nowUs pong st).2.stats agvId).totalRtt /
          (((processPong nowUs pong st).2.stats agvId).sampleCount : ℚ) ∧
      ((processPong nowUs pong st).2.stats agvId).minRtt ≤
        ((nowUs - sendUs : ℤ) : ℚ) / 1000 ∧
      ((nowUs - sendUs : ℤ) : ℚ) / 1000 ≤
        ((processPong nowUs pong st).2.stats agvId).maxRtt ∧
      ((processPong nowUs pong st).2.stats agvId).minRtt ≤
        (st.stats agvId).minRtt ∧
      (st.stats agvId).maxRtt ≤
        ((processPong nowUs pong st).2.stats agvId).maxRtt ∧
      (∀ a, a ≠ agvId → (processPong nowUs pong st).2.stats a = st.stats a)) ∧
    (∀ events, statsBound (processPongRun events).1 (processPongRun events).2) := by
  refine ⟨?_, ?_, fun events => processPongRun_bound events⟩
  · intro hnone
    simp [processPong, hresp, hnone]
  · intro agvId sendUs hpend
    rw [processPong_hit nowUs pong st agvId sendUs hresp hpend]
    refine ⟨rfl, ?_, ?_, ?_, ?_, ?_, ?_, ?_, ?_, ?_, ?_⟩
    · show (if pong.seqNum = pong.seqNum then none else st.pending pong.seqNum) =
        none
      rw [if_pos rfl]
    · intro s2 hs2
      show (if s2 = pong.seqNum then none else st.pending s2) = st.pending s2
      rw [if_neg hs2]
    · show (if agvId = agvId then
          RttStats.update (st.stats agvId) (((nowUs - sendUs : ℤ) : ℚ) / 1000)
          else st.stats agvId).sampleCount = (st.stats agvId).sampleCount + 1
      rw [if_pos rfl]
      rfl
    · show (if agvId = agvId then
          RttStats.update (st.stats agvId) (((nowUs - sendUs : ℤ) : ℚ) / 1000)
          else st.stats agvId).totalRtt =
        (st.stats agvId).totalRtt + ((nowUs - sendUs : ℤ) : ℚ) / 1000
      rw [if_pos rfl]
      rfl
    · show (if agvId = agvId then
          RttStats.update (st.stats agvId) (((nowUs - sendUs : ℤ) : ℚ) / 1000)
          else st.stats agvId).avgRtt =
        (if agvId = agvId then
          RttStats.update (st.stats agvId) (((nowUs - sendUs : ℤ) : ℚ) / 1000)
          else st.stats agvId).totalRtt /
        (((if agvId = agvId then
          RttStats.update (st.stats agvId) (((nowUs - sendUs : ℤ) : ℚ) / 1000)
          else st.stats agvId).sampleCount : ℕ) : ℚ)
      rw [if_pos rfl]
      rfl
    · show (if agvId = agvId then
          RttStats.update (st.stats agvId) (((nowUs - sendUs : ℤ) : ℚ) / 1000)
          else st.stats agvId).minRtt ≤ ((nowUs - sendUs : ℤ) : ℚ) / 1000
      rw [if_pos rfl]
      exact update_minRtt_le_rtt _ _
    · show ((nowUs - sendUs : ℤ) : ℚ) / 1000 ≤ (if agvId = agvId then
          RttStats.update (st.stats agvId) (((nowUs - sendUs : ℤ) : ℚ) / 1000)
          else st.stats agvId).maxRtt
      rw [if_pos rfl]
      exact update_rtt_le_maxRtt _ _
    · show (if agvId = agvId then
          RttStats.update (st.stats agvId) (((nowUs - sendUs : ℤ) : ℚ) / 1000)
          else st.stats agvId).minRtt ≤ (st.stats agvId).minRtt
      rw [if_pos rfl]
      exact update_minRtt_le_old _ _
    · show (st.stats agvId).maxRtt ≤ (if agvId = agvId then
          RttStats.update (st.stats agvId) (((nowUs - sendUs : ℤ) : ℚ) / 1000)
          else st.stats agvId).maxRtt
      rw [if_pos rfl]
      exact update_old_le_maxRtt _ _
    · intro a ha
      show (if a = agvId then
          RttStats.update (st.stats agvId) (((nowUs - sendUs : ℤ) : ℚ) / 1000)
          else st.stats a) = st.stats a
      rw [if_neg ha]

/-- C8 witness: a pong with an unknown sequence number returns −1 and leaves
    the monitor unchanged; a matching pong returns the RTT. -/
theorem processPong_spec_witness :
    processPong 3000 (LatencyProbe.mk 7 true) lmW = (-1, lmW) ∧
    (processPong 3000 pongW lmW).1 = ((3000 - 1000 : ℤ) : ℚ) / 1000 :=
  ⟨(processPong_spec 3000 (LatencyProbe.mk 7 true) lmW rfl).1 rfl,
   ((processPong_spec 3000 pongW lmW rfl).2.1 "A" 1000 rfl).1⟩

/-- Helper: during the callback phase (in-callbacks flag raised), once the
    timer `tid` is out of `activeTimers_` and out of `timers_`, a batch of
    callback actions that cancels `tid` (and only adds freshly allocated
    timers) leaves `tid` out of both sets and inside `cancelingTimers_`. -/
theorem cbFold_invariant (tid : ℕ) :
    ∀ (evs : List CbEvent) (st : TQState),
      tid ∉ st.active →
      tid ∉ st.timers.map Prod.snd →
      st.callingExpired = true →
      (∀ w i, CbEvent.add w i ∈ evs → i ≠ tid) →
      (CbEvent.cancel tid ∈ evs ∨ tid ∈ st.canceling) →
      tid ∉ (evs.foldl applyCbEvent st).active ∧
      tid ∉ (evs.foldl applyCbEvent st).timers.map Prod.snd ∧
      tid ∈ (evs.foldl applyCbEvent st).canceling ∧
      (evs.foldl applyCbEvent st).callingExpired = true := by
  intro evs
  induction evs with
  | nil =>
      intro st h1 h2 h3 _ h5
      rcases h5 with h5 | h5
      · exact absurd h5 (List.not_mem_nil _)
      · exact ⟨h1, h2, h5, h3⟩
  | cons ev tl ih =>
      intro st h1 h2 h3 h4 h5
      rw [List.foldl_cons]
      have h4' : ∀ w i, CbEvent.add w i ∈ tl → i ≠ tid :=
        fun w i hm => h4 w i (List.mem_cons_of_mem _ hm)
      cases ev with
      | cancel j =>
          by_cases hj : j ∈ st.active
          · have e : applyCbEvent st (CbEvent.cancel j) =
                { st with
                  timers := st.timers.filter (fun e => decide (e.2 ≠ j))
                  active := st.active.erase j } := by
              show cancelInLoop j st = _
              unfold cancelInLoop
              rw [if_pos hj]
            rw [e]
            apply ih
            · intro hmem
              exact h1 (Finset.mem_of_mem_erase hmem)
            · intro hmem
              obtain ⟨e2, he2, hsnd⟩ := List.mem_map.mp hmem
              exact h2 (List.mem_map.mpr ⟨e2, List.mem_of_mem_filter he2, hsnd⟩)
            · exact h3
            · exact h4'
            · have hjt : j ≠ tid := fun h => h1 (h ▸ hj)
              rcases h5 with h5 | h5
              · rcases List.mem_cons.mp h5 with he | he
                · exact absurd (by injection he) (Ne.symm hjt)
                · exact Or.inl he
              · exact Or.inr h5
          · have e : applyCbEvent st (CbEvent.cancel j) =
                { st with canceling := insert j st.canceling } := by
              show cancelInLoop j st = _
              unfold cancelInLoop
              rw [if_neg hj, if_pos h3]
            rw [e]
            apply ih
            · exact h1
            · exact h2
            · exact h3
            · exact h4'
            · by_cases hjt : j = tid
              · subst hjt
                exact Or.inr (Finset.mem_insert_self _ _)
              · rcases h5 with h5 | h5
                · rcases List.mem_cons.mp h5 with he | he
                  · have htj : tid = j := by injection he
                    exact absurd htj (fun h => hjt h.symm)
                  · exact Or.inl he
                · exact Or.inr (Finset.mem_insert_of_mem h5)
      | add w i =>
          have hi : i ≠ tid := h4 w i (List.mem_cons_self _ _)
          have e : applyCbEvent st (CbEvent.add w i) =
              { st with
                timers := (w, i) :: st.timers
                active := insert i st.active } := rfl
          rw [e]
          apply ih
          · intro hmem
            rcases Finset.mem_insert.mp hmem with he | he
            · exact hi he.symm
            · exact h1 he
          · intro hmem
            rw [List.map_cons, List.mem_cons] at hmem
            rcases hmem with he | he
            · exact hi he.symm
            · exact h2 he
          · exact h3
          · exact h4'
          · rcases h5 with h5 | h5
            · rcases List.mem_cons.mp h5 with he | he
              · exact CbEvent.noConfusion he
              · exact Or.inl he
            · exact Or.inr h5

/-- Helper: `reset` never re-inserts a timer recorded in
    `cancelingTimers_`. -/
theorem resetFold_invariant (rep : ℕ → Bool) (ival : ℕ → ℤ) (now : ℤ)
    (tid : ℕ) :
    ∀ (expired : List (ℤ × ℕ)) (st : TQState),
      tid ∉ st.timers.map Prod.snd →
      tid ∉ st.active →
      tid ∈ st.canceling →
      tid ∉ (resetExpired rep ival now expired st).timers.map Prod.snd ∧
      tid ∉ (resetExpired rep ival now expired st).active ∧
      tid ∈ (resetExpired rep ival now expired st).canceling := by
  intro expired
  induction expired with
  | nil =>
      intro st h1 h2 h3
      exact ⟨h1, h2, h3⟩
  | cons e tl ih =>
      intro st h1 h2 h3
      have hstep : resetExpired rep ival now (e :: tl) st =
          resetExpired rep ival now tl
            (if rep e.2 = true ∧ e.2 ∉ st.canceling then
              { st with
                timers := (now + ival e.2, e.2) :: st.timers
                active := insert e.2 st.active }
            else st) := rfl
      rw [hstep]
      by_cases hc : rep e.2 = true ∧ e.2 ∉ st.canceling
      · rw [if_pos hc]
        have hne : e.2 ≠ tid := fun h => hc.2 (h ▸ h3)
        apply ih
        · intro hmem
          rw [List.map_cons, List.mem_cons] at hmem
          rcases hmem with he | he
          · exact hne he.symm
          · exact h1 he
        · intro hmem
          rcases Finset.mem_insert.mp hmem with he | he
          · exact hne he.symm
          · exact h2 he
        · exact h3
      · rw [if_neg hc]
        exact ih st h1 h2 h3

/-- C7: a repeating timer whose callback cancels its own `TimerId` while the
    expired batch is being run is not re-inserted by `reset`, is gone from
    both timer sets, and is absent from every later expired batch — it never
    fires again. -/
theorem timer_self_cancel (rep : ℕ → Bool) (ival : ℕ → ℤ) (now : ℤ)
    (cbEvents : List CbEvent) (s : TQState) (texp : ℤ) (tid : ℕ)
    (hmem : (texp, tid) ∈ s.timers)
    (hexp : texp ≤ now)
    (hrep : rep tid = true)
    (hnodup : (s.timers.map Prod.snd).Nodup)
    (hcancel : CbEvent.cancel tid ∈ cbEvents)
    (hfresh : ∀ w i, CbEvent.add w i ∈ cbEvents → i ≠ tid) :
    tid ∉ (handleRead rep ival now cbEvents s).timers.map Prod.snd ∧
    tid ∉ (handleRead rep ival now cbEvents s).active ∧
    ∀ now2, tid ∉ (getExpiredList now2
      (handleRead rep ival now cbEvents s).timers).map Prod.snd := by
  have hA : tid ∉ (TQState.mk
      (s.timers.filter (fun e => decide (now < e.1)))
      (s.active \ (((getExpiredList now s.timers).map Prod.snd).toFinset))
      ∅ true).active := by
    intro hmem2
    have hexpmem : (texp, tid) ∈ getExpiredList now s.timers :=
      List.mem_filter.mpr ⟨hmem, decide_eq_true hexp⟩
    have htid : tid ∈ ((getExpiredList now s.timers).map Prod.snd).toFinset :=
      List.mem_toFinset.mpr (List.mem_map.mpr ⟨(texp, tid), hexpmem, rfl⟩)
    exact (Finset.mem_sdiff.mp hmem2).2 htid
  have hT : tid ∉ (TQState.mk
      (s.timers.filter (fun e => decide (now < e.1)))
      (s.active \ (((getExpiredList now s.timers).map Prod.snd).toFinset))
      ∅ true).timers.map Prod.snd := by
    intro hmem2
    obtain ⟨e2, he2, hsnd⟩ := List.mem_map.mp hmem2
    have he2' : e2 ∈ s.timers ∧ decide (now < e2.1) = true :=
      List.mem_filter.mp he2
    have heq : e2 = (texp, tid) :=
      List.inj_on_of_nodup_map hnodup he2'.1 hmem hsnd
    have : now < texp := by
      have := of_decide_eq_true he2'.2
      rw [heq] at this
      exact this
    omega
  have hcb := cbFold_invariant tid cbEvents
    (TQState.mk
      (s.timers.filter (fun e => decide (now < e.1)))
      (s.active \ (((getExpiredList now s.timers).map Prod.snd).toFinset))
      ∅ true)
    hA hT rfl hfresh (Or.inl hcancel)
  have hrst := resetFold_invariant rep ival now tid
    (getExpiredList now s.timers)
    { (cbEvents.foldl applyCbEvent
        (TQState.mk
          (s.timers.filter (fun e => decide (now < e.1)))
          (s.active \ (((getExpiredList now s.timers).map Prod.snd).toFinset))
          ∅ true)) with callingExpired := false }
    hcb.2.1 hcb.1 hcb.2.2.1
  have hHR : handleRead rep ival now cbEvents s =
      resetExpired rep ival now (getExpiredList now s.timers)
        { (cbEvents.foldl applyCbEvent
            (TQState.mk
              (s.timers.filter (fun e => decide (now < e.1)))
              (s.active \ (((getExpiredList now s.timers).map Prod.snd).toFinset))
              ∅ true)) with callingExpired := false } := rfl
  rw [hHR]
  refine ⟨hrst.1, hrst.2.1, ?_⟩
  intro now2 hmem2
  obtain ⟨e2, he2, hsnd⟩ := List.mem_map.mp hmem2
  exact hrst.1 (List.mem_map.mpr ⟨e2, List.mem_of_mem_filter he2, hsnd⟩)

/-- C7 witness: a single repeating timer (id 1, expiration 0) that cancels
    itself from its own callback at tick `now = 0`. -/
theorem timer_self_cancel_witness :
    1 ∉ (handleRead (fun _ => true) (fun _ => 5) 0 [CbEvent.cancel 1]
        ⟨[((0 : ℤ), 1)], {1}, ∅, false⟩).timers.map Prod.snd ∧
    1 ∉ (handleRead (fun _ => true) (fun _ => 5) 0 [CbEvent.cancel 1]
        ⟨[((0 : ℤ), 1)], {1}, ∅, false⟩).active ∧
    ∀ now2, 1 ∉ (getExpiredList now2
      (handleRead (fun _ => true) (fun _ => 5) 0 [CbEvent.cancel 1]
        ⟨[((0 : ℤ), 1)], {1}, ∅, false⟩).timers).map Prod.snd :=
  timer_self_cancel (fun _ => true) (fun _ => 5) 0 [CbEvent.cancel 1]
    ⟨[((0 : ℤ), 1)], {1}, ∅, false⟩ 0 1
    (by decide) (by decide) rfl (by decide)
    (List.mem_singleton_self _)
    (fun w i h => CbEvent.noConfusion (List.mem_singleton.mp h))

/-- C9: with no worker threads (`start` never called, or called with zero
    threads), `ThreadPool::run(task)` executes the task synchronously on the
    calling thread and enqueues nothing. -/
theorem run_no_workers {τ : Type} (s : ThreadPoolState τ) (task : τ)
    (h : s.threads = 0) :
    ThreadPool.run s task = (RunOutcome.ranInline, s) ∧
    (ThreadPool.run s task).2.queue = s.queue := by
  unfold ThreadPool.run
  rw [if_pos h]
  exact ⟨rfl, rfl⟩

/-- C9 witness: a pool that was constructed and started with zero threads. -/
theorem run_no_workers_witness :
    ThreadPool.run (ThreadPool.start (ThreadPool.create (τ := ℕ)) 0) 42 =
        (RunOutcome.ranInline, ThreadPool.start (ThreadPool.create (τ := ℕ)) 0) ∧
    (ThreadPool.run (ThreadPool.start (ThreadPool.create (τ := ℕ)) 0) 42).2.queue =
        (ThreadPool.start (ThreadPool.create (τ := ℕ)) 0).queue :=
  run_no_workers (ThreadPool.start (ThreadPool.create (τ := ℕ)) 0) 42 rfl

end LskMuduo
